import Mathlib

/-!
Verification of the coverage-annotation core (exclusion marker scanning,
decision reconstruction, coverage merging, coverage-model reporting) of the
gcovr repository. The repository ships only the C/C++ test fixtures of this
core; the algorithmic core itself is therefore embedded here from its
specification, faithfully to the spec's words (each such definition says so
in its doc comment).
-/

namespace Gcovr

/-- Modelled from the spec: a Branch record (§3 Data Model) — the taken-count
of one low-level branch on a line, plus the flag marking it as individually
excluded. The index of a branch within its line is its list position. -/
structure Branch where
  taken : Nat
  excluded : Bool
deriving DecidableEq

/-- Modelled from the spec: a Line record (§3 Data Model) — hit count
(`none` when the line is not executable), the ordered branch records, and
the excluded flag. Decisions are derived, never stored (§4.3). -/
structure Line where
  hits : Option Nat
  branches : List Branch
  excluded : Bool
deriving DecidableEq

/-- Modelled from the spec: a per-run coverage model for one file (§3) —
the ordered Line records, line `n` stored at position `n - 1`. -/
abbrev FileCov := List Line

/-- Modelled from the spec: per-branch merging (§4.3) — `C.taken = A.taken +
B.taken`, exclusion flags are unioned. -/
def mergeBranch (a b : Branch) : Branch :=
  { taken := a.taken + b.taken, excluded := a.excluded || b.excluded }

/-- Modelled from the spec: per-line hit-count merging (§4.3) — the counts
add when both sides are executable; a line non-executable on one side only
is resolved by preferring the executable interpretation. -/
def optAddHits : Option Nat → Option Nat → Option Nat
  | some a, some b => some (a + b)
  | some a, none => some a
  | none, some b => some b
  | none, none => none

/-- Zip two lists with a combining function, keeping the tail of the longer
list unchanged (the shorter side is implicitly padded with neutral
elements). This realises the spec's policy (§4.3) that on a topology
mismatch the longer side's records survive, missing entries counting as
zero-hit. -/
def padZip (f : α → α → α) : List α → List α → List α
  | [], bs => bs
  | a :: as, [] => a :: as
  | a :: as, b :: bs => f a b :: padZip f as bs

/-- Combine two optional values, keeping a lone value unchanged; this is
what `padZip` computes at a fixed index. -/
def optComb (f : α → α → α) : Option α → Option α → Option α
  | some a, some b => some (f a b)
  | some a, none => some a
  | none, some b => some b
  | none, none => none

/-- Modelled from the spec: merging the branch lists of one line (§4.3) —
branches matched by index; on a count mismatch the longer side's set is
taken and missing branches on the shorter side count as zero-hit. -/
def mergeBranches : List Branch → List Branch → List Branch :=
  padZip mergeBranch

/-- Modelled from the spec: the diagnostic condition `BranchTopologyMismatch`
(§7) — the two merge inputs disagree on the branch count for a line. The
condition is diagnostic only; `mergeBranches` is total regardless. -/
def branchTopologyMismatch (as bs : List Branch) : Bool :=
  decide (as.length ≠ bs.length)

/-- Modelled from the spec: per-line merging (§4.3) — hit counts add,
branch lists merge by index, exclusion state is the union of both sides. -/
def mergeLine (a b : Line) : Line :=
  { hits := optAddHits a.hits b.hits,
    branches := mergeBranches a.branches b.branches,
    excluded := a.excluded || b.excluded }

/-- Modelled from the spec: the Coverage Merger (§4.3) — `merge (A, B) = C`,
combining two coverage models of the same file line by line. -/
def merge (a b : FileCov) : FileCov :=
  padZip mergeLine a b

/-- Line lookup in a coverage model; line numbers are 1-indexed. -/
def getLine (m : FileCov) (n : Nat) : Option Line :=
  m[n - 1]?

/-- The hit count of line `n`, when the line exists and is executable. -/
def lineHits (m : FileCov) (n : Nat) : Option Nat :=
  (getLine m n).bind Line.hits

/-- The taken-count of branch `i` of line `n`, when present. -/
def branchTaken (m : FileCov) (n i : Nat) : Option Nat :=
  (getLine m n).bind fun l => (l.branches[i]?).map Branch.taken

/-- Whether line `n` is excluded (absent lines count as not excluded). -/
def lineExcl (m : FileCov) (n : Nat) : Bool :=
  ((getLine m n).map Line.excluded).getD false

/-- Whether branch `i` of line `n` is excluded (absent counts as not). -/
def brExcl (m : FileCov) (n i : Nat) : Bool :=
  ((getLine m n).bind fun l => (l.branches[i]?).map Branch.excluded).getD false

/-- The hit count of line `n`, defaulting to 0 when absent. -/
def lineHitsD (m : FileCov) (n : Nat) : Nat :=
  (lineHits m n).getD 0

/-- The taken-count of branch `i` of line `n`, defaulting to 0. -/
def brTakenD (m : FileCov) (n i : Nat) : Nat :=
  (branchTaken m n i).getD 0

/-- Modelled from the spec: the classification a Decision holds (§3) —
`full`, `part` (the spec's `partial`), `notTaken` (the spec's `not-taken`)
or `excl` (the spec's `excluded`). -/
inductive DecisionClass where
  | full
  | part
  | notTaken
  | excl
deriving DecidableEq

/-- Modelled from the spec: classification of a two-branch Decision (§4.2)
from the two taken-counts — `full` if both are non-zero, `part` if exactly
one is, `notTaken` if neither is. -/
def classifyPair (t f : Nat) : DecisionClass :=
  if 0 < t ∧ 0 < f then .full
  else if 0 < t ∨ 0 < f then .part
  else .notTaken

/-- The classification of the Decision whose underlying branch pair is
`(t, f)`: excluded when either underlying branch is excluded (§4.2),
otherwise classified from the taken-counts. -/
def clsOf (t f : Branch) : DecisionClass :=
  if t.excluded || f.excluded then .excl else classifyPair t.taken f.taken

/-- Modelled from the spec: the Decisions of a condition-header line (§4.2)
— each independent short-circuit boolean sub-term yields its own Decision;
the j-th Decision's underlying branches are the pair at indices 2j and
2j+1. A lone trailing branch yields no Decision (deliberate degradation to
raw per-branch reporting). -/
def pairUp : List Branch → List DecisionClass
  | t :: f :: rest => clsOf t f :: pairUp rest
  | _ => []

/-- Modelled from the spec: the leading control construct of a line, as
produced by the line classifier of the Decision Reconstructor (§4.2). The
textual classifier itself belongs to the core absent from the repository's
sources; its output is taken as input here. `condHeader` covers
`if`/`else if`/ternary/loop headers, `caseLabel` a `case` or `default`
label on its own line, `plain` everything else. -/
inductive Construct where
  | condHeader
  | caseLabel
  | plain
deriving DecidableEq

/-- Modelled from the spec: the Decision Reconstructor (§4.2) — given the
line's classified leading construct and the line's data, produce the
ordered Decision classifications. A condition header pairs up its
branches; a `case`/`default` label yields exactly one Decision classified
by the label's own hit count alone (excluded when the line is excluded);
an unrecognized construct yields none. -/
def reconstructDecisions (c : Construct) (l : Line) : List DecisionClass :=
  match c with
  | .condHeader => pairUp l.branches
  | .caseLabel =>
    match l.hits with
    | some h => [if l.excluded then .excl else if 0 < h then .full else .notTaken]
    | none => []
  | .plain => []

/-- The classification of Decision `j` of line `n` of a model, given the
line's construct. -/
def decisionClsAt (c : Construct) (m : FileCov) (n j : Nat) : Option DecisionClass :=
  (getLine m n).bind fun l => (reconstructDecisions c l)[j]?

/-- The spec's decision scenario: a line `if (a > 5)` whose two branches
show taken-counts 3 and 0, nothing excluded. -/
def ifLine : Line :=
  { hits := some 3, branches := [⟨3, false⟩, ⟨0, false⟩], excluded := false }

/-- A `case` label line with hit count `h`, nothing excluded. -/
def caseLine (h : Nat) : Line :=
  { hits := some h, branches := [], excluded := false }

/-- The Decisions reconstructed from the spec's switch scenario: four
`case` labels on their own lines with hit counts 5, 0, 2, 0. -/
def switchDecisions : List DecisionClass :=
  ([caseLine 5, caseLine 0, caseLine 2, caseLine 0].map
    (reconstructDecisions .caseLabel)).flatten

/-- A line that is not executable and carries no data. -/
def blankLine : Line :=
  { hits := none, branches := [], excluded := false }

/-- The spec's merge scenario, run A: line 5 has hits 1, branches taken
`[1, 0]`; other lines are not executable. -/
def runA : FileCov :=
  [blankLine, blankLine, blankLine, blankLine,
   { hits := some 1, branches := [⟨1, false⟩, ⟨0, false⟩], excluded := false }]

/-- The spec's merge scenario, run B: line 5 has hits 2, branches taken
`[0, 1]`. -/
def runB : FileCov :=
  [blankLine, blankLine, blankLine, blankLine,
   { hits := some 2, branches := [⟨0, false⟩, ⟨1, false⟩], excluded := false }]

/-- A one-line model whose single line and first branch are excluded. -/
def exclRun : FileCov :=
  [{ hits := some 1, branches := [⟨0, true⟩, ⟨2, false⟩], excluded := true }]

/-- A one-line model with nothing excluded. -/
def plainRun : FileCov :=
  [{ hits := some 4, branches := [⟨1, false⟩, ⟨0, false⟩], excluded := false }]

/-- The branch list of the repository's different-branches merge fixture
compiled without TWO_CONDITIONS: one condition, two branches, the true
branch taken. -/
def diffA : List Branch := [⟨1, false⟩, ⟨0, false⟩]

/-- The branch list of the same line compiled with TWO_CONDITIONS: two
short-circuit conditions, four branches. -/
def diffB : List Branch := [⟨1, false⟩, ⟨0, false⟩, ⟨0, false⟩, ⟨1, false⟩]

/-- Modelled from the spec: the kind of an ExclusionRegion (§3). -/
inductive ExclusionKind where
  | line
  | branch
  | function
  | decision
deriving DecidableEq

/-- Modelled from the spec: an ExclusionRegion (§3) — a half-open line
range `[start, stop)` with a kind. -/
structure ExclusionRegion where
  kind : ExclusionKind
  start : Nat
  stop : Nat
deriving DecidableEq

/-- The marker content of one source line, as recognized by one marker
family of the Exclusion Marker Scanner: a block START marker, a block STOP
marker, or no marker. -/
inductive MarkerTok where
  | tokStart
  | tokStop
  | tokNone
deriving DecidableEq

/-- Modelled from the spec: the block-marker state machine of the Exclusion
Marker Scanner (§4.1, §9) — a single left-to-right pass; a START marker
opens a region, the next STOP marker on a later or equal line closes it
(the STOP line itself stays excluded, so the half-open region ends one
past the STOP line); an unterminated START is closed at end-of-file (the
diagnostic for that error condition is outside this model). `n` is the
current 1-indexed line number, the `Option Nat` the line of the currently
open START, if any. -/
def scanRegions (k : ExclusionKind) : Nat → Option Nat → List MarkerTok → List ExclusionRegion
  | _, none, [] => []
  | n, some s, [] => [⟨k, s, n⟩]
  | n, none, MarkerTok.tokStart :: rest => scanRegions k (n + 1) (some n) rest
  | n, none, _ :: rest => scanRegions k (n + 1) none rest
  | n, some s, MarkerTok.tokStop :: rest => ⟨k, s, n + 1⟩ :: scanRegions k (n + 1) none rest
  | n, some s, _ :: rest => scanRegions k (n + 1) (some s) rest

/-- Scan a whole file's marker tokens, starting outside any region at
line 1. -/
def scanFile (k : ExclusionKind) (toks : List MarkerTok) : List ExclusionRegion :=
  scanRegions k 1 none toks

/-- Whether line `n` falls in the half-open range of region `r`. -/
def inRegion (r : ExclusionRegion) (n : Nat) : Bool :=
  decide (r.start ≤ n) && decide (n < r.stop)

/-- Whether line `n` is excluded by any of the regions. -/
def excludedAt (rs : List ExclusionRegion) (n : Nat) : Bool :=
  rs.any fun r => inRegion r n

/-- The spec's block-exclusion scenario: a 30-line file whose only markers
are a START on line 20 and a STOP on line 25. -/
def c7Toks : List MarkerTok :=
  List.replicate 19 .tokNone ++ [.tokStart] ++ List.replicate 4 .tokNone ++
    [.tokStop] ++ List.replicate 5 .tokNone

/-- Modelled from the spec: how many of a list of branches are taken. -/
def takenCount (bs : List Branch) : Nat :=
  bs.countP fun b => decide (0 < b.taken)

/-- Modelled from the spec (§3, §4.4): the branches of a set that
contribute to reporting — those not flagged excluded. -/
def relevantBranches (bs : List Branch) : List Branch :=
  bs.filter fun b => !b.excluded

/-- Whether every branch of the set is taken — the default notion of a
fully covered branch set. -/
def allTaken (bs : List Branch) : Bool :=
  bs.all fun b => decide (0 < b.taken)

/-- Modelled from the spec (§4.4): whether the hit fraction of a branch
set meets or exceeds a declared threshold `N of M` — `taken / total ≥
N / M`, compared without division. -/
def thresholdMet : Option (Nat × Nat) → List Branch → Bool
  | some (n, m), rel => decide (n * rel.length ≤ takenCount rel * m)
  | none, _ => false

/-- Modelled from the spec: the Coverage Model reporting layer's judgement
of a branch set (§4.4) — excluded branches contribute to neither numerator
nor denominator, and the set is reported fully covered when all remaining
branches are taken or when the threshold-marker override applies. -/
def reportedCovered (thr : Option (Nat × Nat)) (bs : List Branch) : Bool :=
  allTaken (relevantBranches bs) || thresholdMet thr (relevantBranches bs)

/-- The spec's threshold scenario: five branches, three taken, none
excluded. -/
def fiveWithThreeTaken : List Branch :=
  [⟨1, false⟩, ⟨1, false⟩, ⟨1, false⟩, ⟨0, false⟩, ⟨0, false⟩]

/-- The spec's threshold scenario: five branches, only two taken. -/
def fiveWithTwoTaken : List Branch :=
  [⟨1, false⟩, ⟨1, false⟩, ⟨0, false⟩, ⟨0, false⟩, ⟨0, false⟩]

/-- Five branches of which three are taken, with one taken branch
source-excluded: the set the reporting layer judges as 2-of-4. -/
def c10Branches : List Branch :=
  [⟨1, false⟩, ⟨1, false⟩, ⟨1, true⟩, ⟨0, false⟩, ⟨0, false⟩]

theorem padZip_nil_right (f : α → α → α) (as : List α) : padZip f as [] = as := by
  cases as <;> rfl

theorem padZip_comm (f : α → α → α) (hf : ∀ a b, f a b = f b a) :
    ∀ as bs, padZip f as bs = padZip f bs as := by
  intro as
  induction as with
  | nil => intro bs; cases bs <;> rfl
  | cons a as ih =>
    intro bs
    cases bs with
    | nil => rfl
    | cons b bs => simp only [padZip]; rw [hf a b, ih bs]

theorem padZip_assoc (f : α → α → α) (hf : ∀ a b c, f (f a b) c = f a (f b c)) :
    ∀ as bs cs, padZip f (padZip f as bs) cs = padZip f as (padZip f bs cs) := by
  intro as
  induction as with
  | nil => intro bs cs; rfl
  | cons a as ih =>
    intro bs cs
    cases bs with
    | nil => rfl
    | cons b bs =>
      cases cs with
      | nil => rfl
      | cons c cs => simp only [padZip]; rw [hf a b c, ih bs cs]

theorem padZip_getElem? (f : α → α → α) :
    ∀ (as bs : List α) (i : Nat), (padZip f as bs)[i]? = optComb f as[i]? bs[i]? := by
  intro as
  induction as with
  | nil =>
    intro bs i
    show bs[i]? = optComb f (List.nil)[i]? bs[i]?
    cases hb : bs[i]? <;> simp [optComb]
  | cons a as ih =>
    intro bs i
    cases bs with
    | nil =>
      rw [padZip_nil_right]
      cases ha : (a :: as)[i]? <;> simp [optComb, ha]
    | cons b bs =>
      cases i with
      | zero => simp [padZip, optComb]
      | succ i => simp only [padZip, List.getElem?_cons_succ]; exact ih bs i

theorem padZip_length (f : α → α → α) :
    ∀ as bs : List α, (padZip f as bs).length = max as.length bs.length := by
  intro as
  induction as with
  | nil => intro bs; simp [padZip]
  | cons a as ih =>
    intro bs
    cases bs with
    | nil => simp [padZip]
    | cons b bs =>
      simp only [padZip, List.length_cons, ih bs]
      omega

theorem mergeBranch_comm (a b : Branch) : mergeBranch a b = mergeBranch b a := by
  simp [mergeBranch, Nat.add_comm, Bool.or_comm]

theorem mergeBranch_assoc (a b c : Branch) :
    mergeBranch (mergeBranch a b) c = mergeBranch a (mergeBranch b c) := by
  simp [mergeBranch, Nat.add_assoc, Bool.or_assoc]

theorem optAddHits_comm (a b : Option Nat) : optAddHits a b = optAddHits b a := by
  cases a <;> cases b <;> simp [optAddHits, Nat.add_comm]

theorem optAddHits_assoc (a b c : Option Nat) :
    optAddHits (optAddHits a b) c = optAddHits a (optAddHits b c) := by
  cases a <;> cases b <;> cases c <;> simp [optAddHits, Nat.add_assoc]

theorem mergeLine_comm (a b : Line) : mergeLine a b = mergeLine b a := by
  simp [mergeLine, mergeBranches, optAddHits_comm, Bool.or_comm,
    padZip_comm mergeBranch mergeBranch_comm]

theorem mergeLine_assoc (a b c : Line) :
    mergeLine (mergeLine a b) c = mergeLine a (mergeLine b c) := by
  simp [mergeLine, mergeBranches, optAddHits_assoc, Bool.or_assoc,
    padZip_assoc mergeBranch mergeBranch_assoc]

theorem merge_getLine (A B : FileCov) (n : Nat) :
    getLine (merge A B) n = optComb mergeLine (getLine A n) (getLine B n) :=
  padZip_getElem? mergeLine A B (n - 1)

theorem lineHits_merge (A B : FileCov) (n ha hb : Nat)
    (hA : lineHits A n = some ha) (hB : lineHits B n = some hb) :
    lineHits (merge A B) n = some (ha + hb) := by
  unfold lineHits at hA hB ⊢
  rw [merge_getLine]
  cases hgA : getLine A n with
  | none => rw [hgA] at hA; simp at hA
  | some la =>
    cases hgB : getLine B n with
    | none => rw [hgB] at hB; simp at hB
    | some lb =>
      rw [hgA] at hA
      rw [hgB] at hB
      simp at hA hB
      simp [optComb, mergeLine, optAddHits, hA, hB]

theorem branchTaken_merge (A B : FileCov) (n i ta tb : Nat)
    (hA : branchTaken A n i = some ta) (hB : branchTaken B n i = some tb) :
    branchTaken (merge A B) n i = some (ta + tb) := by
  unfold branchTaken at hA hB ⊢
  rw [merge_getLine]
  cases hgA : getLine A n with
  | none => rw [hgA] at hA; simp at hA
  | some la =>
    cases hgB : getLine B n with
    | none => rw [hgB] at hB; simp at hB
    | some lb =>
      rw [hgA] at hA
      rw [hgB] at hB
      simp at hA hB
      obtain ⟨ba, hba, hta⟩ := hA
      obtain ⟨bb, hbb, htb⟩ := hB
      have hbm : (mergeLine la lb).branches = mergeBranches la.branches lb.branches := rfl
      simp only [optComb, Option.some_bind, hbm]
      unfold mergeBranches
      rw [padZip_getElem?, hba, hbb]
      simp [optComb, mergeBranch, hta, htb]

theorem mergeFile_comm (A B : FileCov) : merge A B = merge B A :=
  padZip_comm mergeLine mergeLine_comm A B

theorem mergeFile_assoc (A B C : FileCov) :
    merge (merge A B) C = merge A (merge B C) :=
  padZip_assoc mergeLine mergeLine_assoc A B C

/-- C1: merge is commutative and associative over coverage models of the
same file — `merge A B = merge B A` and `merge (merge A B) C =
merge A (merge B C)` — so folding any number of per-run models in any
order (any permutation of the runs) yields the same final model. -/
theorem merge_comm_assoc :
    (∀ A B : FileCov, merge A B = merge B A) ∧
    (∀ A B C : FileCov, merge (merge A B) C = merge A (merge B C)) ∧
    (∀ runs1 runs2 : List FileCov, runs1.Perm runs2 → ∀ A : FileCov,
      List.foldl merge A runs1 = List.foldl merge A runs2) := by
  refine ⟨mergeFile_comm, mergeFile_assoc, ?_⟩
  intro runs1 runs2 p A
  apply p.foldl_eq'
  intro x _ y _ z
  rw [mergeFile_assoc, mergeFile_assoc, mergeFile_comm x y]

theorem merge_comm_assoc_witness :
    List.foldl merge ([] : FileCov) [runA, runB] =
      List.foldl merge ([] : FileCov) [runB, runA] :=
  merge_comm_assoc.2.2 [runA, runB] [runB, runA] (by decide) []

/-- C2: for every executable line present in both merge inputs, the merged
line's hit count is the sum of the two inputs' hit counts and each branch's
taken-count (matched by index) is the sum of the inputs' taken-counts; in
particular `merge A A` doubles every executable line's hits and every
branch's taken-count. The spec's concrete scenario (line 5: hits 1 + 2,
branches `[1,0] + [0,1]`) evaluates as stated. -/
theorem merge_line_branch_sums :
    (∀ (A B : FileCov) (n ha hb : Nat), lineHits A n = some ha →
      lineHits B n = some hb → lineHits (merge A B) n = some (ha + hb)) ∧
    (∀ (A B : FileCov) (n i ta tb : Nat), branchTaken A n i = some ta →
      branchTaken B n i = some tb → branchTaken (merge A B) n i = some (ta + tb)) ∧
    (∀ (A : FileCov) (n h : Nat), lineHits A n = some h →
      lineHits (merge A A) n = some (2 * h)) ∧
    (∀ (A : FileCov) (n i t : Nat), branchTaken A n i = some t →
      branchTaken (merge A A) n i = some (2 * t)) ∧
    (lineHits (merge runA runB) 5 = some 3 ∧
      branchTaken (merge runA runB) 5 0 = some 1 ∧
      branchTaken (merge runA runB) 5 1 = some 1) := by
  refine ⟨lineHits_merge, branchTaken_merge, ?_, ?_, by decide⟩
  · intro A n h hA
    rw [two_mul]
    exact lineHits_merge A A n h h hA hA
  · intro A n i t hT
    rw [two_mul]
    exact branchTaken_merge A A n i t t hT hT

theorem merge_line_branch_sums_witness :
    lineHits (merge runA runB) 5 = some (1 + 2) :=
  merge_line_branch_sums.1 runA runB 5 1 2 rfl rfl

/-- C4: when the two merge inputs disagree on the branch count for the same
line, merging the branch lists never fails — the result has the branch set
of whichever side has more branches, each index present on both sides sums
the taken-counts, each index missing on the shorter side keeps the longer
side's record unchanged (the missing branch counts as taken 0), and the
`BranchTopologyMismatch` diagnostic condition holds exactly when the counts
differ (it is diagnostic only; `mergeBranches` is a total function). The
different-branches fixture (2 branches vs 4) merges as stated. -/
theorem branch_topology_mismatch_policy :
    (∀ as bs : List Branch, (mergeBranches as bs).length = max as.length bs.length) ∧
    (∀ (as bs : List Branch) (i : Nat) (a b : Branch), as[i]? = some a →
      bs[i]? = some b → (mergeBranches as bs)[i]? = some (mergeBranch a b)) ∧
    (∀ (as bs : List Branch) (i : Nat) (b : Branch), as.length ≤ i →
      bs[i]? = some b → (mergeBranches as bs)[i]? = some b) ∧
    (∀ (as bs : List Branch) (i : Nat) (a : Branch), bs.length ≤ i →
      as[i]? = some a → (mergeBranches as bs)[i]? = some a) ∧
    (∀ as bs : List Branch, branchTopologyMismatch as bs = true ↔ as.length ≠ bs.length) ∧
    (mergeBranches diffA diffB = [⟨2, false⟩, ⟨0, false⟩, ⟨0, false⟩, ⟨1, false⟩] ∧
      branchTopologyMismatch diffA diffB = true) := by
  refine ⟨padZip_length mergeBranch, ?_, ?_, ?_, ?_, by decide⟩
  · intro as bs i a b ha hb
    unfold mergeBranches
    rw [padZip_getElem?, ha, hb]
    rfl
  · intro as bs i b hlen hb
    unfold mergeBranches
    rw [padZip_getElem?, List.getElem?_eq_none hlen, hb]
    rfl
  · intro as bs i a hlen ha
    unfold mergeBranches
    rw [padZip_getElem?, List.getElem?_eq_none hlen, ha]
    rfl
  · intro as bs
    unfold branchTopologyMismatch
    exact decide_eq_true_iff

theorem branch_topology_mismatch_policy_witness :
    (mergeBranches diffA diffB)[2]? = some (⟨0, false⟩ : Branch) :=
  branch_topology_mismatch_policy.2.2.1 diffA diffB 2 ⟨0, false⟩ (by decide) rfl

theorem classifyPair_ne_excl (t f : Nat) : classifyPair t f ≠ DecisionClass.excl := by
  unfold classifyPair
  split
  · simp
  · split <;> simp

theorem pairUp_getElem? :
    ∀ (j : Nat) (bs : List Branch) (t f : Branch), bs[2 * j]? = some t →
      bs[2 * j + 1]? = some f → (pairUp bs)[j]? = some (clsOf t f) := by
  intro j
  induction j with
  | zero =>
    intro bs t f ht hf
    cases bs with
    | nil => simp at ht
    | cons x bs =>
      cases bs with
      | nil => simp at hf
      | cons y rest =>
        simp at ht hf
        have hx : pairUp (x :: y :: rest) = clsOf x y :: pairUp rest := rfl
        rw [hx, List.getElem?_cons_zero, ht, hf]
  | succ j ih =>
    intro bs t f ht hf
    cases bs with
    | nil => simp at ht
    | cons x bs =>
      cases bs with
      | nil =>
        have h2 : 2 * (j + 1) = 0 + 1 + 1 ∨ 2 ≤ 2 * (j + 1) := by omega
        have : ([x] : List Branch)[2 * (j + 1)]? = none := by
          apply List.getElem?_eq_none
          simp
          omega
        rw [this] at ht
        exact absurd ht (by simp)
      | cons y rest =>
        have ht' : rest[2 * j]? = some t := by
          have he : 2 * (j + 1) = 2 * j + 1 + 1 := by omega
          rw [he, List.getElem?_cons_succ, List.getElem?_cons_succ] at ht
          exact ht
        have hf' : rest[2 * j + 1]? = some f := by
          have he : 2 * (j + 1) + 1 = 2 * j + 1 + 1 + 1 := by omega
          rw [he, List.getElem?_cons_succ, List.getElem?_cons_succ] at hf
          exact hf
        show (clsOf x y :: pairUp rest)[j + 1]? = some (clsOf t f)
        rw [List.getElem?_cons_succ]
        exact ih rest t f ht' hf'

theorem pairUp_getElem?_some :
    ∀ (j : Nat) (bs : List Branch) (d : DecisionClass), (pairUp bs)[j]? = some d →
      ∃ t f, bs[2 * j]? = some t ∧ bs[2 * j + 1]? = some f ∧ d = clsOf t f := by
  intro j
  induction j with
  | zero =>
    intro bs d hd
    cases bs with
    | nil => simp [pairUp] at hd
    | cons x bs =>
      cases bs with
      | nil => simp [pairUp] at hd
      | cons y rest =>
        have hx : pairUp (x :: y :: rest) = clsOf x y :: pairUp rest := rfl
        rw [hx, List.getElem?_cons_zero] at hd
        exact ⟨x, y, by simp, by simp, (Option.some_inj.mp hd).symm⟩
  | succ j ih =>
    intro bs d hd
    cases bs with
    | nil => simp [pairUp] at hd
    | cons x bs =>
      cases bs with
      | nil => simp [pairUp] at hd
      | cons y rest =>
        have hx : pairUp (x :: y :: rest) = clsOf x y :: pairUp rest := rfl
        rw [hx, List.getElem?_cons_succ] at hd
        obtain ⟨t, f, ht, hf, hcls⟩ := ih rest d hd
        refine ⟨t, f, ?_, ?_, hcls⟩
        · have he : 2 * (j + 1) = 2 * j + 1 + 1 := by omega
          rw [he, List.getElem?_cons_succ, List.getElem?_cons_succ]
          exact ht
        · have he : 2 * (j + 1) + 1 = 2 * j + 1 + 1 + 1 := by omega
          rw [he, List.getElem?_cons_succ, List.getElem?_cons_succ]
          exact hf

theorem pairUp_length : ∀ bs : List Branch, (pairUp bs).length = bs.length / 2
  | [] => by simp [pairUp]
  | [_] => by simp [pairUp]
  | _ :: _ :: rest => by
    show (pairUp rest).length + 1 = (rest.length + 1 + 1) / 2
    rw [pairUp_length rest]
    omega

theorem mergeBranches_left_some (as bs : List Branch) (i : Nat) (a : Branch)
    (ha : as[i]? = some a) :
    ∃ c, (mergeBranches as bs)[i]? = some c ∧
      (a.excluded = true → c.excluded = true) ∧ a.taken ≤ c.taken := by
  unfold mergeBranches
  rw [padZip_getElem?, ha]
  cases hb : bs[i]? with
  | none => exact ⟨a, rfl, fun h => h, Nat.le_refl _⟩
  | some b =>
    refine ⟨mergeBranch a b, rfl, ?_, ?_⟩
    · intro h
      simp [mergeBranch, h]
    · exact Nat.le_add_right a.taken b.taken

theorem lineExcl_merge (A B : FileCov) (n : Nat) :
    lineExcl (merge A B) n = (lineExcl A n || lineExcl B n) := by
  unfold lineExcl
  rw [merge_getLine]
  cases getLine A n <;> cases getLine B n <;> simp [optComb, mergeLine]

theorem brExcl_merge (A B : FileCov) (n i : Nat) :
    brExcl (merge A B) n i = (brExcl A n i || brExcl B n i) := by
  unfold brExcl
  rw [merge_getLine]
  cases getLine A n with
  | none => cases getLine B n <;> simp [optComb]
  | some la =>
    cases getLine B n with
    | none => simp [optComb]
    | some lb =>
      show ((((mergeLine la lb).branches)[i]?).map Branch.excluded).getD false =
        ((((la.branches)[i]?).map Branch.excluded).getD false ||
          (((lb.branches)[i]?).map Branch.excluded).getD false)
      have hbm : (mergeLine la lb).branches = mergeBranches la.branches lb.branches := rfl
      rw [hbm]
      unfold mergeBranches
      rw [padZip_getElem?]
      cases la.branches[i]? <;> cases lb.branches[i]? <;> simp [optComb, mergeBranch]

theorem decisionClsAt_excl_merge (c : Construct) (A B : FileCov) (n j : Nat)
    (h : decisionClsAt c A n j = some DecisionClass.excl) :
    decisionClsAt c (merge A B) n j = some DecisionClass.excl := by
  unfold decisionClsAt at h ⊢
  rw [merge_getLine]
  cases hgA : getLine A n with
  | none => rw [hgA] at h; simp at h
  | some la =>
    rw [hgA] at h
    simp only [Option.some_bind] at h
    cases hgB : getLine B n with
    | none => exact h
    | some lb =>
      show (reconstructDecisions c (mergeLine la lb))[j]? = some DecisionClass.excl
      cases c with
      | plain => simp [reconstructDecisions] at h
      | condHeader =>
        obtain ⟨t, f, ht, hf, hcls⟩ := pairUp_getElem?_some j la.branches _ h
        have hex : (t.excluded || f.excluded) = true := by
          unfold clsOf at hcls
          split at hcls
          · assumption
          · exact absurd hcls.symm (classifyPair_ne_excl t.taken f.taken)
        obtain ⟨t', ht', htex, _⟩ :=
          mergeBranches_left_some la.branches lb.branches (2 * j) t ht
        obtain ⟨f', hf', hfex, _⟩ :=
          mergeBranches_left_some la.branches lb.branches (2 * j + 1) f hf
        have hmain : (pairUp (mergeBranches la.branches lb.branches))[j]? =
            some (clsOf t' f') :=
          pairUp_getElem? j _ t' f' ht' hf'
        have hbm : (mergeLine la lb).branches = mergeBranches la.branches lb.branches := rfl
        show (pairUp ((mergeLine la lb).branches))[j]? = some DecisionClass.excl
        rw [hbm, hmain]
        have hex2 : t.excluded = true ∨ f.excluded = true := by
          simpa using hex
        have hex' : (t'.excluded || f'.excluded) = true := by
          rcases hex2 with h1 | h1
          · simp [htex h1]
          · simp [hfex h1]
        simp [clsOf, hex']
      | caseLabel =>
        cases hh : la.hits with
        | none => simp [reconstructDecisions, hh] at h
        | some hcount =>
          cases j with
          | succ j => simp [reconstructDecisions, hh] at h
          | zero =>
            simp [reconstructDecisions, hh] at h
            have hle : la.excluded = true := by
              by_contra hne
              rw [Bool.not_eq_true] at hne
              rw [hne] at h
              simp at h
              split at h <;> simp_all
            have hm1 : (mergeLine la lb).excluded = true := by
              simp [mergeLine, hle]
            have hm2 : ∃ k, (mergeLine la lb).hits = some k := by
              cases hlb : lb.hits <;> simp [mergeLine, optAddHits, hh, hlb]
            obtain ⟨k, hk⟩ := hm2
            simp [reconstructDecisions, hk, hm1]

theorem lineExcl_foldl (A : FileCov) (ms : List FileCov) (n : Nat)
    (h : lineExcl A n = true) : lineExcl (List.foldl merge A ms) n = true := by
  induction ms generalizing A with
  | nil => exact h
  | cons B ms ih =>
    exact ih (merge A B) (by rw [lineExcl_merge, h]; rfl)

theorem brExcl_foldl (A : FileCov) (ms : List FileCov) (n i : Nat)
    (h : brExcl A n i = true) : brExcl (List.foldl merge A ms) n i = true := by
  induction ms generalizing A with
  | nil => exact h
  | cons B ms ih =>
    exact ih (merge A B) (by rw [brExcl_merge, h]; rfl)

theorem decisionClsAt_excl_foldl (c : Construct) (A : FileCov) (ms : List FileCov)
    (n j : Nat) (h : decisionClsAt c A n j = some DecisionClass.excl) :
    decisionClsAt c (List.foldl merge A ms) n j = some DecisionClass.excl := by
  induction ms generalizing A with
  | nil => exact h
  | cons B ms ih =>
    exact ih (merge A B) (decisionClsAt_excl_merge c A B n j h)

theorem lineHitsD_merge_le (A B : FileCov) (n : Nat) :
    lineHitsD A n ≤ lineHitsD (merge A B) n := by
  unfold lineHitsD lineHits
  rw [merge_getLine]
  cases getLine A n with
  | none => simp
  | some la =>
    cases getLine B n with
    | none => simp [optComb]
    | some lb =>
      cases hla : la.hits <;> cases hlb : lb.hits <;>
        simp [optComb, mergeLine, optAddHits, hla, hlb, Nat.le_add_right]

theorem brTakenD_merge_le (A B : FileCov) (n i : Nat) :
    brTakenD A n i ≤ brTakenD (merge A B) n i := by
  unfold brTakenD branchTaken
  rw [merge_getLine]
  cases getLine A n with
  | none => simp
  | some la =>
    cases getLine B n with
    | none => simp [optComb]
    | some lb =>
      show ((((la.branches)[i]?).map Branch.taken).getD 0 : Nat) ≤
        ((((mergeLine la lb).branches[i]?).map Branch.taken).getD 0 : Nat)
      have hbm : (mergeLine la lb).branches = mergeBranches la.branches lb.branches := rfl
      rw [hbm]
      unfold mergeBranches
      rw [padZip_getElem?]
      cases la.branches[i]? <;> cases lb.branches[i]? <;>
        simp [optComb, mergeBranch, Nat.le_add_right]

/-- C3: exclusion is monotone and idempotent under merge — the merged
exclusion state of a line or branch is the union (Boolean or) of the two
sides' states, a location excluded in one input stays excluded in the
result and through any number of subsequent merges (likewise an excluded
Decision, recomputed from the merged line), and hit counts and branch
taken-counts never decrease under merge. -/
theorem exclusion_monotone_under_merge :
    (∀ (A B : FileCov) (n : Nat), lineExcl (merge A B) n = (lineExcl A n || lineExcl B n)) ∧
    (∀ (A B : FileCov) (n i : Nat),
      brExcl (merge A B) n i = (brExcl A n i || brExcl B n i)) ∧
    (∀ (c : Construct) (A B : FileCov) (n j : Nat),
      decisionClsAt c A n j = some DecisionClass.excl →
      decisionClsAt c (merge A B) n j = some DecisionClass.excl) ∧
    (∀ (A : FileCov) (ms : List FileCov) (n : Nat), lineExcl A n = true →
      lineExcl (List.foldl merge A ms) n = true) ∧
    (∀ (A : FileCov) (ms : List FileCov) (n i : Nat), brExcl A n i = true →
      brExcl (List.foldl merge A ms) n i = true) ∧
    (∀ (c : Construct) (A : FileCov) (ms : List FileCov) (n j : Nat),
      decisionClsAt c A n j = some DecisionClass.excl →
      decisionClsAt c (List.foldl merge A ms) n j = some DecisionClass.excl) ∧
    (∀ (A B : FileCov) (n : Nat), lineHitsD A n ≤ lineHitsD (merge A B) n) ∧
    (∀ (A B : FileCov) (n i : Nat), brTakenD A n i ≤ brTakenD (merge A B) n i) :=
  ⟨lineExcl_merge, brExcl_merge, decisionClsAt_excl_merge,
   lineExcl_foldl, brExcl_foldl, decisionClsAt_excl_foldl,
   lineHitsD_merge_le, brTakenD_merge_le⟩

theorem exclusion_monotone_under_merge_witness :
    lineExcl (List.foldl merge exclRun [plainRun, plainRun]) 1 = true :=
  exclusion_monotone_under_merge.2.2.2.1 exclRun [plainRun, plainRun] 1 (by decide)

/-- C5: on a condition-header line (if / else if / ternary / loop header),
each independent short-circuit boolean sub-term yields its own Decision —
one per underlying branch pair — and a Decision over the non-excluded
branch pair `(t, f)` is classified full when both taken-counts are
non-zero, partial when exactly one is, not-taken when neither is. The
spec's scenario — `if (a > 5)` with branches `[taken=3, taken=0]` — yields
exactly one Decision classified partial. -/
theorem cond_decision_classification :
    (∀ l : Line, (reconstructDecisions .condHeader l).length = l.branches.length / 2) ∧
    (∀ (l : Line) (j : Nat) (t f : Branch), l.branches[2 * j]? = some t →
      l.branches[2 * j + 1]? = some f → t.excluded = false → f.excluded = false →
      (reconstructDecisions .condHeader l)[j]? =
        some (if 0 < t.taken ∧ 0 < f.taken then DecisionClass.full
          else if 0 < t.taken ∨ 0 < f.taken then DecisionClass.part
          else DecisionClass.notTaken)) ∧
    reconstructDecisions .condHeader ifLine = [DecisionClass.part] := by
  refine ⟨fun l => pairUp_length l.branches, ?_, by decide⟩
  intro l j t f ht hf hte hfe
  show (pairUp l.branches)[j]? = _
  rw [pairUp_getElem? j l.branches t f ht hf]
  simp [clsOf, hte, hfe, classifyPair]

theorem cond_decision_classification_witness :
    (reconstructDecisions Construct.condHeader ifLine)[0]? =
      some (if 0 < (3 : Nat) ∧ 0 < (0 : Nat) then DecisionClass.full
        else if 0 < (3 : Nat) ∨ 0 < (0 : Nat) then DecisionClass.part
        else DecisionClass.notTaken) :=
  cond_decision_classification.2.1 ifLine 0 ⟨3, false⟩ ⟨0, false⟩
    (by decide) (by decide) (by decide) (by decide)

/-- C6: each `case` (or `default`) label on its own line yields exactly one
Decision, classified by that label's own hit count alone — full when the
hit count is non-zero, not-taken when it is zero. The spec's scenario — a
switch whose four case labels have hit counts 5, 0, 2, 0 — yields four
Decisions of which exactly two are not-taken. -/
theorem case_label_decisions :
    (∀ (l : Line) (h : Nat), l.hits = some h → l.excluded = false →
      reconstructDecisions .caseLabel l =
        [if 0 < h then DecisionClass.full else DecisionClass.notTaken]) ∧
    switchDecisions.length = 4 ∧
    switchDecisions.count DecisionClass.notTaken = 2 := by
  refine ⟨?_, by decide, by decide⟩
  intro l h hh he
  simp [reconstructDecisions, hh, he]

theorem case_label_decisions_witness :
    reconstructDecisions Construct.caseLabel (caseLine 5) =
      [if 0 < (5 : Nat) then DecisionClass.full else DecisionClass.notTaken] :=
  case_label_decisions.1 (caseLine 5) 5 rfl rfl

/-- C7: a block exclusion whose START marker sits on line 20 and whose
matching STOP marker sits on line 25 produces the single half-open
ExclusionRegion `[20, 26)` — so lines 20 through 25 inclusive (both the
START and the STOP line) are excluded while line 26 is not, even though
the region itself is stored as a half-open range. -/
theorem block_exclusion_scenario :
    scanFile ExclusionKind.line c7Toks =
      [{ kind := ExclusionKind.line, start := 20, stop := 26 }] ∧
    ([20, 21, 22, 23, 24, 25].all fun n =>
      excludedAt (scanFile ExclusionKind.line c7Toks) n) = true ∧
    excludedAt (scanFile ExclusionKind.line c7Toks) 26 = false := by
  decide

/-- C8: for a line carrying a threshold marker `require N of M branches
hit`, a branch set of M non-excluded branches is reported fully covered
exactly when the number of taken branches meets or exceeds N (for
meaningful thresholds, N ≤ M and M > 0); the spec's scenario — threshold
3-of-5 — reports the 3-taken set covered and the 2-taken set uncovered. -/
theorem threshold_marker_reporting :
    (∀ (bs : List Branch) (n m : Nat), (∀ b ∈ bs, b.excluded = false) →
      bs.length = m → 0 < m → n ≤ m →
      (reportedCovered (some (n, m)) bs = true ↔ n ≤ takenCount bs)) ∧
    reportedCovered (some (3, 5)) fiveWithThreeTaken = true ∧
    reportedCovered (some (3, 5)) fiveWithTwoTaken = false := by
  refine ⟨?_, by decide, by decide⟩
  intro bs n m hex hlen hm hnm
  have hrel : relevantBranches bs = bs := by
    unfold relevantBranches
    apply List.filter_eq_self.mpr
    intro b hb
    simp [hex b hb]
  have hthr : thresholdMet (some (n, m)) bs =
      decide (n * bs.length ≤ takenCount bs * m) := rfl
  unfold reportedCovered
  rw [hrel, hthr, hlen]
  constructor
  · intro h
    rw [Bool.or_eq_true] at h
    rcases h with h1 | h1
    · have hall : ∀ b ∈ bs, decide (0 < b.taken) = true := List.all_eq_true.mp h1
      have hc : takenCount bs = bs.length := List.countP_eq_length.mpr hall
      omega
    · have h2 : n * m ≤ takenCount bs * m := of_decide_eq_true h1
      exact Nat.le_of_mul_le_mul_right h2 hm
  · intro h
    have h2 : n * m ≤ takenCount bs * m := Nat.mul_le_mul_right m h
    rw [Bool.or_eq_true]
    exact Or.inr (decide_eq_true h2)

theorem threshold_marker_reporting_witness :
    reportedCovered (some (3, 5)) fiveWithThreeTaken = true ↔
      3 ≤ takenCount fiveWithThreeTaken :=
  threshold_marker_reporting.1 fiveWithThreeTaken 3 5 (by decide) rfl
    (by decide) (by decide)

/-- C10: source-level branch exclusions are applied before the threshold
override — a branch flagged excluded is removed from the set the reporting
layer judges, so it contributes to neither the taken count nor the total,
and only then is the threshold fraction evaluated. The spec's 3-of-5 set
with one taken branch source-excluded is judged as 2 taken of 4 total —
reported uncovered — while the same set without the exclusion is reported
covered. -/
theorem source_exclusion_before_threshold :
    (∀ (thr : Option (Nat × Nat)) (pre post : List Branch) (b : Branch),
      b.excluded = true →
      reportedCovered thr (pre ++ b :: post) = reportedCovered thr (pre ++ post)) ∧
    (relevantBranches c10Branches).length = 4 ∧
    takenCount (relevantBranches c10Branches) = 2 ∧
    reportedCovered (some (3, 5)) c10Branches = false ∧
    reportedCovered (some (3, 5)) fiveWithThreeTaken = true := by
  refine ⟨?_, by decide, by decide, by decide, by decide⟩
  intro thr pre post b hb
  have hrel : relevantBranches (pre ++ b :: post) = relevantBranches (pre ++ post) := by
    unfold relevantBranches
    rw [List.filter_append, List.filter_append, List.filter_cons]
    simp [hb]
  unfold reportedCovered
  rw [hrel]

theorem source_exclusion_before_threshold_witness :
    reportedCovered (some (3, 5))
        ([⟨1, false⟩, ⟨1, false⟩] ++ (⟨1, true⟩ : Branch) :: [⟨0, false⟩, ⟨0, false⟩]) =
      reportedCovered (some (3, 5)) ([⟨1, false⟩, ⟨1, false⟩] ++ [⟨0, false⟩, ⟨0, false⟩]) :=
  source_exclusion_before_threshold.1 (some (3, 5)) [⟨1, false⟩, ⟨1, false⟩]
    [⟨0, false⟩, ⟨0, false⟩] ⟨1, true⟩ rfl

end Gcovr
